import Mathlib

/-!
Verification development for the sstable table-builder core
(`src/table_builder.rs`): the `Footer` fixed-layout encode/decode, the
framed block writer (`write_block`), the `TableBuilder` add/finish
pipeline, and the CRC32-C / masked-checksum framing.

Modelling conventions:
* Byte strings are `List Nat` (each element a byte value `< 256`; theorems
  that need byte bounds carry them as hypotheses).
* Machine integers are `Nat` with explicit `% 2 ^ w` where wrap-around
  matters; the `usize` bound `< 2 ^ 64` appears as a hypothesis where the
  on-disk format depends on it.
* The output sink (`dst : Dst` with `Dst : Write`) is modelled as the list
  of all bytes emitted so far (`out` field); a successful `write_all` is
  list append, `flush` is a no-op.
* Fallible operations return `Option`; a Rust `panic!`/`assert!` failure
  and an `Err` return are both modelled as `none`.
* Collaborator code of this repository that is not under `src/`
  (`blockhandle.rs`, `block_builder.rs`, `filter.rs`, `filter_block.rs`,
  `types.rs`, `options.rs`) is modelled from the spec; each such
  definition carries a `Modelled from the spec:` doc comment.
-/

/-- Modelled from the spec: compression selector from `options.rs` (not under
src/); §6 requires at least a "none" and a "Snappy" tag, with the tag byte
stored even for "none". -/
inductive CompressionType where
  | CompressionNone : CompressionType
  | CompressionSnappy : CompressionType
deriving DecidableEq

/-- Modelled from the spec: the filter policy from `filter.rs` (not under
src/): a name and a key-set summariser (§6 collaborator contract); the
filter's internal bit representation is an external contract, concretised
here as an arbitrary function to bytes. -/
structure FilterPolicy where
  name : List Nat
  createFilter : List (List Nat) → List Nat

/-- Modelled from the spec: `NoFilterPolicy` from `filter.rs` (not under
src/): the degenerate always-absent filter policy installed by
`new_no_filter`. -/
def noFilterPolicy : FilterPolicy :=
  { name := [110, 111, 110, 101], createFilter := fun _ => [] }

/-- Modelled from the spec: the configuration surface of `options.rs` (not
under src/) consumed by the core (§6): block-size budget, compression
selector, comparator (total order plus separator/successor synthesis),
filter policy. The external Snappy compressor (`snap` crate) is abstracted
as the `snappy` function. -/
structure Options where
  cmp : List Nat → List Nat → Ordering
  find_shortest_sep : List Nat → List Nat → List Nat
  find_short_succ : List Nat → List Nat
  compression_type : CompressionType
  block_size : Nat
  filter_policy : FilterPolicy
  snappy : List Nat → List Nat

/-- Block handle: `{offset, length}` pointer into the file
(`blockhandle.rs`, not under src/; field layout per spec §3). -/
structure BlockHandle where
  offset : Nat
  size : Nat
deriving DecidableEq

/-- LEB128 varint encoder, fuelled so that it is structurally recursive and
kernel-reducible; `varintEnc` supplies sufficient fuel. -/
def varintEncAux : Nat → Nat → List Nat
  | 0, n => [n]
  | f + 1, n => if n < 128 then [n] else (n % 128 + 128) :: varintEncAux f (n / 128)

/-- Modelled from the spec: variable-length unsigned integer encoding used
by `BlockHandle::encode_to` (`integer-encoding` crate, not under src/):
little-endian base-128 with a continuation bit (§3, §6). -/
def varintEnc (n : Nat) : List Nat := varintEncAux n n

/-- Modelled from the spec: varint decoding returning `(value, bytes
consumed)`; per §4.1 malformed input is not validated and yields
implementation-defined truncation, so the decoder is total. -/
def varintDec : List Nat → Nat × Nat
  | [] => (0, 0)
  | b :: rest =>
    if b < 128 then (b, 1)
    else
      let r := varintDec rest
      (b - 128 + 128 * r.1, r.2 + 1)

/-- Modelled from the spec: `BlockHandle::encode_to` payload — offset varint
then length varint (§6 on-disk format). -/
def blockHandleEnc (h : BlockHandle) : List Nat :=
  varintEnc h.offset ++ varintEnc h.size

/-- Modelled from the spec: `BlockHandle::decode` — two consecutive varints,
also returning the total number of bytes consumed (§3, §4.1). -/
def blockHandleDec (l : List Nat) : BlockHandle × Nat :=
  let a := varintDec l
  let b := varintDec (l.drop a.2)
  ({ offset := a.1, size := b.1 }, a.2 + b.2)

/-- `FOOTER_LENGTH` from `table_builder.rs`. -/
def FOOTER_LENGTH : Nat := 40

/-- `FULL_FOOTER_LENGTH = FOOTER_LENGTH + 8` from `table_builder.rs`. -/
def FULL_FOOTER_LENGTH : Nat := FOOTER_LENGTH + 8

/-- `MAGIC_FOOTER_ENCODED` from `table_builder.rs`. -/
def MAGIC_FOOTER_ENCODED : List Nat :=
  [0x57, 0xfb, 0x80, 0x8b, 0x24, 0x75, 0x47, 0xdb]

/-- Footer value: pointers to the metaindex and index blocks
(`table_builder.rs`). -/
structure Footer where
  meta_index : BlockHandle
  index : BlockHandle
deriving DecidableEq

/-- `Footer::new`. -/
def Footer.new (metaix index : BlockHandle) : Footer :=
  { meta_index := metaix, index := index }

/-- In-place slice write: overwrite `buf[pos .. pos + bytes.length)` with
`bytes` (models writing into a `&mut [u8]`). -/
def writeAt (buf : List Nat) (pos : Nat) (bytes : List Nat) : List Nat :=
  buf.take pos ++ bytes ++ buf.drop (pos + bytes.length)

/-- `Footer::encode`: asserts the destination holds at least 48 bytes
(modelled as `none`), writes the metaindex handle at offset 0, the index
handle right after it (each `encode_to` asserting its varints fit the
remaining slice), zero-fills up to byte 40 and writes the magic at
`[40, 48)`. -/
def Footer.encode (f : Footer) (dst : List Nat) : Option (List Nat) :=
  if dst.length < FULL_FOOTER_LENGTH then none
  else
    let e1 := blockHandleEnc f.meta_index
    let e2 := blockHandleEnc f.index
    if dst.length < e1.length then none
    else if dst.length - e1.length < e2.length then none
    else
      let t1 := writeAt dst 0 e1
      let t2 := writeAt t1 e1.length e2
      let t3 := writeAt t2 (e1.length + e2.length)
        (List.replicate (FOOTER_LENGTH - (e1.length + e2.length)) 0)
      some (writeAt t3 FOOTER_LENGTH MAGIC_FOOTER_ENCODED)

/-- `Footer::decode`: asserts (modelled as `none`) that the buffer holds at
least 48 bytes and that `from[40..]` — the whole tail from byte 40 on —
equals the 8-byte magic, then decodes the metaindex handle from offset 0
and the index handle immediately after it. -/
def Footer.decode (src : List Nat) : Option Footer :=
  if src.length < FULL_FOOTER_LENGTH then none
  else if src.drop FOOTER_LENGTH = MAGIC_FOOTER_ENCODED then
    let m := blockHandleDec src
    let ix := blockHandleDec (src.drop m.2)
    some { meta_index := m.1, index := ix.1 }
  else none

/-- CRC-32C (Castagnoli) reflected polynomial `0x82F63B78`; models the
`crc` crate's `CRC_32_ISCSI` used by the `CASTAGNOLI` constant. -/
def CASTAGNOLI_POLY : Nat := 0x82F63B78

/-- One bit step of the reflected CRC-32C: shift right, conditionally xor
the polynomial. -/
def crcStepBit (s : Nat) : Nat :=
  if s % 2 = 1 then (s / 2) ^^^ CASTAGNOLI_POLY else s / 2

/-- Iterate `crcStepBit` k times. -/
def crcBits : Nat → Nat → Nat
  | 0, s => s
  | k + 1, s => crcBits k (crcStepBit s)

/-- Absorb one byte into the CRC state. -/
def crcStepByte (s b : Nat) : Nat := crcBits 8 (s ^^^ b)

/-- Modelled from the spec: CRC32 with the Castagnoli polynomial (§6 frame
format; the `crc` crate is external to this repository): init `0xFFFFFFFF`,
reflected bit order, final complement. -/
def crc32c (data : List Nat) : Nat :=
  0xFFFFFFFF ^^^ data.foldl crcStepByte 0xFFFFFFFF

/-- Modelled from the spec: `mask_crc` from `types.rs` (not under src/) —
the fixed bijective transform applied to a CRC before storage (§3, §9):
rotate left by 17 within 32 bits, then add a constant mod `2 ^ 32`. -/
def mask_crc (c : Nat) : Nat :=
  (c / 32768 + c % 32768 * 131072 + 0xa282ead8) % 4294967296

/-- Modelled from the spec: `unmask_crc` from `types.rs` (not under src/),
the inverse transform applied on read (§3). -/
def unmask_crc (m : Nat) : Nat :=
  ((m + 4294967296 - 0xa282ead8) % 4294967296) % 131072 * 32768 +
    ((m + 4294967296 - 0xa282ead8) % 4294967296) / 131072

/-- Fixed-width little-endian 4-byte encoding (`write_fixedint` on a
`u32`). -/
def le32 (n : Nat) : List Nat :=
  [n % 256, n / 256 % 256, n / 65536 % 256, n / 16777216 % 256]

/-- The tag byte stored after a block's contents (`ctype as u8`). -/
def tagByte : CompressionType → Nat
  | CompressionType.CompressionNone => 0
  | CompressionType.CompressionSnappy => 1

/-- The (possibly compressed) contents actually framed by `write_block`:
Snappy-compress when the compression type says so, else the raw
contents. -/
def framePayload (opt : Options) (ctype : CompressionType) (contents : List Nat) : List Nat :=
  if ctype = CompressionType.CompressionSnappy then opt.snappy contents else contents

/-- The masked checksum `write_block` stores for a frame: masked CRC32-C
over the (possibly compressed) contents followed by the tag byte. -/
def frameChecksum (opt : Options) (ctype : CompressionType) (contents : List Nat) : Nat :=
  mask_crc (crc32c (framePayload opt ctype contents ++ [tagByte ctype]))

/-- The full wire frame emitted for one block: payload, tag byte, 4-byte
little-endian masked checksum. -/
def writeFrame (opt : Options) (ctype : CompressionType) (contents : List Nat) : List Nat :=
  framePayload opt ctype contents ++ [tagByte ctype] ++ le32 (frameChecksum opt ctype contents)

/-- Modelled from the spec: `BlockBuilder` state from `block_builder.rs`
(not under src/). Per the §6 collaborator contract it accumulates ordered
key/value pairs; its internal prefix-compressed encoding is an external
contract, concretised below. -/
structure BlockBuilder where
  buffer : List (List Nat × List Nat)

/-- Modelled from the spec: `BlockBuilder::new`. -/
def BlockBuilder.new : BlockBuilder := { buffer := [] }

/-- Modelled from the spec: `BlockBuilder::last_key` (§6). -/
def BlockBuilder.lastKey (b : BlockBuilder) : List Nat :=
  (b.buffer.map Prod.fst).getLastD []

/-- Modelled from the spec: `BlockBuilder::add` (§6). Per the entry-ordering
invariant (§3) — exercised in-src by `test_bad_input`'s expected panic on
equal consecutive keys inside one block — it asserts that a non-empty
block's last key is strictly below the new key; assertion failure is
`none`. -/
def BlockBuilder.add (b : BlockBuilder) (cmp : List Nat → List Nat → Ordering)
    (key val : List Nat) : Option BlockBuilder :=
  if b.buffer = [] ∨ cmp b.lastKey key = Ordering.lt then
    some { buffer := b.buffer ++ [(key, val)] }
  else none

/-- Modelled from the spec: `BlockBuilder::entries` (§6). -/
def BlockBuilder.entriesCount (b : BlockBuilder) : Nat := b.buffer.length

/-- Modelled from the spec: `BlockBuilder::size_estimate` (§6) — a base
cost (restart array) plus per-entry key/value bytes and headers,
concretised. -/
def BlockBuilder.sizeEstimate (b : BlockBuilder) : Nat :=
  8 + (b.buffer.map fun e => e.1.length + e.2.length + 3).sum

/-- Modelled from the spec: `BlockBuilder::finish` (§6) — consume the
builder into its encoded block contents; the encoding itself is an
external contract, concretised as length-prefixed entries plus an entry
count. -/
def BlockBuilder.finish (b : BlockBuilder) : List Nat :=
  (b.buffer.map fun e =>
    varintEnc e.1.length ++ e.1 ++ varintEnc e.2.length ++ e.2).flatten
    ++ varintEnc b.buffer.length

/-- Modelled from the spec: `FilterBlockBuilder` state from
`filter_block.rs` (not under src/): forwarded keys and block-start offsets
(§4.4, §6). -/
structure FilterBlockBuilder where
  policy : FilterPolicy
  keys : List (List Nat)
  offsets : List Nat

/-- Modelled from the spec: `FilterBlockBuilder::new`. -/
def FilterBlockBuilder.new (p : FilterPolicy) : FilterBlockBuilder :=
  { policy := p, keys := [], offsets := [] }

/-- Modelled from the spec: `FilterBlockBuilder::add_key` (§6). -/
def FilterBlockBuilder.addKey (fb : FilterBlockBuilder) (k : List Nat) : FilterBlockBuilder :=
  { fb with keys := fb.keys ++ [k] }

/-- Modelled from the spec: `FilterBlockBuilder::start_block` (§6). -/
def FilterBlockBuilder.startBlock (fb : FilterBlockBuilder) (off : Nat) : FilterBlockBuilder :=
  { fb with offsets := fb.offsets ++ [off] }

/-- Modelled from the spec: `FilterBlockBuilder::filter_name` (§6). -/
def FilterBlockBuilder.filterName (fb : FilterBlockBuilder) : List Nat :=
  fb.policy.name

/-- Modelled from the spec: `FilterBlockBuilder::finish` (§6) — the filter
block's bytes; internal representation is an external contract,
concretised as the policy's filter data plus the encoded offsets. -/
def FilterBlockBuilder.finish (fb : FilterBlockBuilder) : List Nat :=
  fb.policy.createFilter fb.keys ++ (fb.offsets.map varintEnc).flatten
    ++ varintEnc fb.offsets.length

/-- The metaindex key for the filter entry: `"filter."` (bytes
`66 69 6c 74 65 72 2e`) followed by the filter's name. -/
def filterKey (fb : FilterBlockBuilder) : List Nat :=
  [102, 105, 108, 116, 101, 114, 46] ++ fb.filterName

/-- `TableBuilder` state (`table_builder.rs`): options, the output sink
modelled as the bytes emitted so far, the running output offset, entry
count, previous block's last key, and the three in-progress builders.
`data_block`/`index_block` are always present until `finish` consumes the
builder, so only `filter_block` keeps its `Option` slot. -/
structure TableBuilder where
  opt : Options
  out : List Nat
  offset : Nat
  num_entries : Nat
  prev_block_last_key : List Nat
  data_block : BlockBuilder
  index_block : BlockBuilder
  filter_block : Option FilterBlockBuilder

/-- `TableBuilder::new`: fresh builders, empty sink, offset 0; the filter
block slot is always populated from the configured policy. -/
def TableBuilder.new (opt : Options) : TableBuilder :=
  { opt := opt
    out := []
    offset := 0
    num_entries := 0
    prev_block_last_key := []
    data_block := BlockBuilder.new
    index_block := BlockBuilder.new
    filter_block := some (FilterBlockBuilder.new opt.filter_policy) }

/-- `TableBuilder::new_no_filter`: overwrite the configured filter policy
with `NoFilterPolicy`, then construct normally. -/
def TableBuilder.new_no_filter (opt : Options) : TableBuilder :=
  TableBuilder.new { opt with filter_policy := noFilterPolicy }

/-- `TableBuilder::write_block`: compress if configured, write contents,
tag byte and 4-byte little-endian masked CRC32-C over contents‖tag; return
the handle (pre-write offset, payload length) and advance the offset by
payload length + 1 + 4. -/
def writeBlock (tb : TableBuilder) (block : List Nat) (ctype : CompressionType) :
    BlockHandle × TableBuilder :=
  let data := framePayload tb.opt ctype block
  let cksum := mask_crc (crc32c (data ++ [tagByte ctype]))
  ({ offset := tb.offset, size := data.length },
   { tb with
      out := tb.out ++ (data ++ [tagByte ctype] ++ le32 cksum)
      offset := tb.offset + data.length + 1 + 4 })

/-- `TableBuilder::write_data_block`: compute the separator from the
block's last key and the boundary hint, remember the last key, frame-write
the finished block with the configured compression, append the index entry
(separator ↦ encoded handle; `encode_to` into the 16-byte scratch asserts
the encoding fits), install a fresh data block and notify the filter of
the new block's offset. -/
def writeDataBlock (tb : TableBuilder) (next_key : List Nat) : Option TableBuilder :=
  let block := tb.data_block
  let sep := tb.opt.find_shortest_sep block.lastKey next_key
  let p := writeBlock { tb with prev_block_last_key := block.lastKey }
    block.finish tb.opt.compression_type
  if 16 < (blockHandleEnc p.1).length then none
  else
    (p.2.index_block.add tb.opt.cmp sep (blockHandleEnc p.1)).map fun ix =>
      { p.2 with
          index_block := ix
          data_block := BlockBuilder.new
          filter_block := p.2.filter_block.map fun fb => fb.startBlock p.2.offset }

/-- `TableBuilder::add`: assert (as `none`) that a non-empty
`prev_block_last_key` is strictly below the new key, seal the current data
block first if its size estimate exceeds the budget, forward the key to
the filter and insert into the data block. -/
def addTB (tb : TableBuilder) (key val : List Nat) : Option TableBuilder :=
  if tb.prev_block_last_key ≠ [] ∧ tb.opt.cmp tb.prev_block_last_key key ≠ Ordering.lt then
    none
  else
    (if tb.opt.block_size < tb.data_block.sizeEstimate then writeDataBlock tb key
     else some tb).bind fun tb1 =>
      (tb1.data_block.add tb.opt.cmp key val).map fun db =>
        { tb1 with
            data_block := db
            filter_block := tb1.filter_block.map fun fb => fb.addKey key
            num_entries := tb1.num_entries + 1 }

/-- Feed a list of entries through `add`. -/
def addAll : TableBuilder → List (List Nat × List Nat) → Option TableBuilder
  | tb, [] => some tb
  | tb, kv :: rest => (addTB tb kv.1 kv.2).bind fun tb1 => addAll tb1 rest

/-- `TableBuilder::finish`: seal the pending data block (boundary hint =
short successor of its last key) when it has entries; if a filter block is
present, frame-write it uncompressed and add its entry to a fresh
metaindex block; frame-write the metaindex and index blocks with the
configured compression; encode the footer into a 48-byte buffer, append
it raw, flush (a no-op on the pure sink) and return the final offset. -/
def finishTB (tb : TableBuilder) : Option (Nat × List Nat) :=
  (if 0 < tb.data_block.entriesCount then
      writeDataBlock tb (tb.opt.find_short_succ tb.data_block.lastKey)
    else some tb).bind fun tb1 =>
  (match tb1.filter_block with
   | some fb =>
      let p := writeBlock { tb1 with filter_block := none }
        fb.finish CompressionType.CompressionNone
      if 16 < (blockHandleEnc p.1).length then none
      else
        (BlockBuilder.new.add tb1.opt.cmp (filterKey fb) (blockHandleEnc p.1)).map
          fun mix => (mix, p.2)
   | none => some (BlockBuilder.new, tb1)).bind fun pr =>
    let p2 := writeBlock pr.2 pr.1.finish pr.2.opt.compression_type
    let p3 := writeBlock p2.2 p2.2.index_block.finish p2.2.opt.compression_type
    (Footer.encode (Footer.new p2.1 p3.1) (List.replicate 48 0)).map fun fbytes =>
      (p3.2.offset + 48, p3.2.out ++ fbytes)

/-- Whole pipeline: a fresh builder, a sequence of `add` calls, then
`finish`; yields the returned byte count and the full sink contents. -/
def buildTable (opt : Options) (entries : List (List Nat × List Nat)) :
    Option (Nat × List Nat) :=
  (addAll (TableBuilder.new opt) entries).bind finishTB

/-- Byte-wise lexicographic comparison, the default comparator. -/
def lexCmp : List Nat → List Nat → Ordering
  | [], [] => Ordering.eq
  | [], _ :: _ => Ordering.lt
  | _ :: _, [] => Ordering.gt
  | a :: as', b :: bs' =>
    if a < b then Ordering.lt else if b < a then Ordering.gt else lexCmp as' bs'

/-- Concrete options instance used by witnesses and counterexamples:
lexicographic comparator, trivial separator/successor synthesis, no
compression, identity Snappy stand-in. -/
def defaultOptions : Options :=
  { cmp := lexCmp
    find_shortest_sep := fun a _ => a
    find_short_succ := fun a => a ++ [255]
    compression_type := CompressionType.CompressionNone
    block_size := 4096
    filter_policy := noFilterPolicy
    snappy := fun l => l }

/-- Flip bit `i` of the byte at index `k`. -/
def flipBitAt (l : List Nat) (k i : Nat) : List Nat :=
  l.set k (l.getD k 0 ^^^ 2 ^ i)

/-! ## Varint encoding lemmas -/

theorem varintEncAux_congr : ∀ f g n, n ≤ f → n ≤ g → varintEncAux f n = varintEncAux g n := by
  intro f
  induction f with
  | zero =>
    intro g n hf _
    have hn : n = 0 := Nat.le_zero.mp hf
    subst hn
    cases g <;> simp [varintEncAux]
  | succ f ih =>
    intro g n hf hg
    cases g with
    | zero =>
      have hn : n = 0 := Nat.le_zero.mp hg
      subst hn
      simp [varintEncAux]
    | succ g =>
      by_cases h : n < 128
      · simp [varintEncAux, h]
      · simp only [varintEncAux, if_neg h]
        have hdiv : n / 128 < n := Nat.div_lt_self (by omega) (by omega)
        rw [ih g (n / 128) (by omega) (by omega)]

theorem varintEnc_eq (n : Nat) :
    varintEnc n = if n < 128 then [n] else (n % 128 + 128) :: varintEnc (n / 128) := by
  by_cases h : n < 128
  · rw [if_pos h]
    cases n with
    | zero => simp [varintEnc, varintEncAux]
    | succ m => simp [varintEnc, varintEncAux, h]
  · rw [if_neg h]
    cases n with
    | zero => omega
    | succ m =>
      show varintEncAux (m + 1) (m + 1) = _
      rw [varintEncAux]
      rw [if_neg h]
      have hdiv : (m + 1) / 128 < m + 1 := Nat.div_lt_self (by omega) (by omega)
      rw [varintEncAux_congr m ((m + 1) / 128) ((m + 1) / 128) (by omega) (by omega)]
      rfl

theorem varintDec_enc (n : Nat) :
    ∀ rest, varintDec (varintEnc n ++ rest) = (n, (varintEnc n).length) := by
  induction n using Nat.strong_induction_on with
  | _ n ih =>
    intro rest
    rw [varintEnc_eq n]
    by_cases h : n < 128
    · simp [varintDec, h]
    · rw [if_neg h]
      have h2 : ¬ (n % 128 + 128 < 128) := by omega
      have hdiv : n / 128 < n := Nat.div_lt_self (by omega) (by omega)
      simp only [List.cons_append, varintDec, if_neg h2, List.append_eq]
      rw [ih (n / 128) hdiv rest]
      simp only [List.length_cons]
      exact Prod.ext (by omega) rfl

theorem varintEnc_bytes (n : Nat) : ∀ x ∈ varintEnc n, x < 256 := by
  induction n using Nat.strong_induction_on with
  | _ n ih =>
    rw [varintEnc_eq n]
    by_cases h : n < 128
    · simp only [if_pos h, List.mem_singleton]
      omega
    · simp only [if_neg h, List.mem_cons]
      intro x hx
      cases hx with
      | inl he => omega
      | inr ht => exact ih (n / 128) (Nat.div_lt_self (by omega) (by omega)) x ht

theorem varintEnc_length_le : ∀ (k n : Nat), n < 128 ^ (k + 1) → (varintEnc n).length ≤ k + 1 := by
  intro k
  induction k with
  | zero =>
    intro n h
    have hn : n < 128 := by simpa using h
    rw [varintEnc_eq, if_pos hn]
    simp
  | succ k ih =>
    intro n h
    rw [varintEnc_eq]
    by_cases hn : n < 128
    · simp [hn]
    · simp only [if_neg hn, List.length_cons]
      have hlt : n / 128 < 128 ^ (k + 1) := by
        rw [Nat.div_lt_iff_lt_mul (by omega)]
        calc n < 128 ^ (k + 1 + 1) := h
          _ = 128 ^ (k + 1) * 128 := by ring
      have := ih (n / 128) hlt
      omega

theorem varintEnc_le_ten (n : Nat) (h : n < 2 ^ 64) : (varintEnc n).length ≤ 10 :=
  varintEnc_length_le 9 n (lt_trans h (by norm_num))

theorem blockHandleEnc_le (h : BlockHandle) (h1 : h.offset < 2 ^ 64) (h2 : h.size < 2 ^ 64) :
    (blockHandleEnc h).length ≤ 20 := by
  have a1 := varintEnc_le_ten h.offset h1
  have a2 := varintEnc_le_ten h.size h2
  simp only [blockHandleEnc, List.length_append]
  omega

theorem blockHandleDec_enc (h : BlockHandle) (rest : List Nat) :
    blockHandleDec (blockHandleEnc h ++ rest) = (h, (blockHandleEnc h).length) := by
  obtain ⟨o, s⟩ := h
  simp only [blockHandleDec, blockHandleEnc, List.append_assoc]
  rw [varintDec_enc o]
  simp only
  rw [List.drop_left' rfl, varintDec_enc s]
  simp [List.length_append]

/-! ## Footer layout lemmas -/

theorem writeAt_append (pre mid post bytes : List Nat) (hlen : mid.length = bytes.length) :
    writeAt (pre ++ mid ++ post) pre.length bytes = pre ++ bytes ++ post := by
  have hb : pre ++ mid ++ post = pre ++ (mid ++ post) := List.append_assoc pre mid post
  unfold writeAt
  rw [hb, List.take_left, List.drop_append_eq_append_drop,
    List.drop_eq_nil_of_le (by omega : pre.length ≤ pre.length + bytes.length)]
  simp only [List.nil_append]
  rw [show pre.length + bytes.length - pre.length = mid.length by omega, List.drop_left]

theorem writeAt_length (buf : List Nat) (pos : Nat) (bytes : List Nat)
    (h : pos + bytes.length ≤ buf.length) : (writeAt buf pos bytes).length = buf.length := by
  simp only [writeAt, List.length_append, List.length_take, List.length_drop]
  omega


theorem footer_writeAt_chain (e1 e2 dst : List Nat) (hlen : 48 ≤ dst.length)
    (hfit : e1.length + e2.length ≤ 40) :
    writeAt (writeAt (writeAt (writeAt dst 0 e1) e1.length e2) (e1.length + e2.length)
        (List.replicate (40 - (e1.length + e2.length)) 0)) 40 MAGIC_FOOTER_ENCODED
      = e1 ++ e2 ++ List.replicate (40 - (e1.length + e2.length)) 0
          ++ MAGIC_FOOTER_ENCODED ++ dst.drop 48 := by
  have s1 : writeAt dst 0 e1 = e1 ++ dst.drop e1.length := by
    have hl : (dst.take e1.length).length = e1.length := by
      simp only [List.length_take]
      omega
    calc writeAt dst 0 e1
        = writeAt (([] : List Nat) ++ dst.take e1.length ++ dst.drop e1.length)
            (List.length ([] : List Nat)) e1 := by
          rw [List.length_nil, List.nil_append, List.take_append_drop]
      _ = [] ++ e1 ++ dst.drop e1.length := writeAt_append _ _ _ _ hl
      _ = e1 ++ dst.drop e1.length := by rw [List.nil_append]
  have s2 : writeAt (e1 ++ dst.drop e1.length) e1.length e2
      = (e1 ++ e2) ++ dst.drop (e1.length + e2.length) := by
    have hl : ((dst.drop e1.length).take e2.length).length = e2.length := by
      simp only [List.length_take, List.length_drop]
      omega
    calc writeAt (e1 ++ dst.drop e1.length) e1.length e2
        = writeAt (e1 ++ (dst.drop e1.length).take e2.length
            ++ (dst.drop e1.length).drop e2.length) e1.length e2 := by
          rw [List.append_assoc e1, List.take_append_drop]
      _ = e1 ++ e2 ++ (dst.drop e1.length).drop e2.length := writeAt_append _ _ _ _ hl
      _ = (e1 ++ e2) ++ dst.drop (e1.length + e2.length) := by
          rw [List.drop_drop]
  have s3 : writeAt ((e1 ++ e2) ++ dst.drop (e1.length + e2.length)) (e1.length + e2.length)
        (List.replicate (40 - (e1.length + e2.length)) 0)
      = ((e1 ++ e2) ++ List.replicate (40 - (e1.length + e2.length)) 0) ++ dst.drop 40 := by
    have hl : ((dst.drop (e1.length + e2.length)).take (40 - (e1.length + e2.length))).length
        = (List.replicate (40 - (e1.length + e2.length)) (0 : Nat)).length := by
      simp only [List.length_take, List.length_drop, List.length_replicate]
      omega
    have hpos : e1.length + e2.length = (e1 ++ e2).length := by
      simp [List.length_append]
    calc writeAt ((e1 ++ e2) ++ dst.drop (e1.length + e2.length)) (e1.length + e2.length)
          (List.replicate (40 - (e1.length + e2.length)) 0)
        = writeAt ((e1 ++ e2)
            ++ (dst.drop (e1.length + e2.length)).take (40 - (e1.length + e2.length))
            ++ (dst.drop (e1.length + e2.length)).drop (40 - (e1.length + e2.length)))
            (e1 ++ e2).length (List.replicate (40 - (e1.length + e2.length)) 0) := by
          rw [← hpos, List.append_assoc (e1 ++ e2), List.take_append_drop]
      _ = (e1 ++ e2) ++ List.replicate (40 - (e1.length + e2.length)) 0
            ++ (dst.drop (e1.length + e2.length)).drop (40 - (e1.length + e2.length)) :=
          writeAt_append _ _ _ _ hl
      _ = ((e1 ++ e2) ++ List.replicate (40 - (e1.length + e2.length)) 0) ++ dst.drop 40 := by
          rw [List.drop_drop]
          congr 2
          omega
  have s4 : writeAt (((e1 ++ e2) ++ List.replicate (40 - (e1.length + e2.length)) 0)
        ++ dst.drop 40) 40 MAGIC_FOOTER_ENCODED
      = ((e1 ++ e2) ++ List.replicate (40 - (e1.length + e2.length)) 0)
          ++ MAGIC_FOOTER_ENCODED ++ dst.drop 48 := by
    have hl : ((dst.drop 40).take 8).length = MAGIC_FOOTER_ENCODED.length := by
      simp only [List.length_take, List.length_drop, MAGIC_FOOTER_ENCODED,
        List.length_cons, List.length_nil]
      omega
    have hpos : (40 : Nat)
        = ((e1 ++ e2) ++ List.replicate (40 - (e1.length + e2.length)) (0 : Nat)).length := by
      simp only [List.length_append, List.length_replicate]
      omega
    calc writeAt (((e1 ++ e2) ++ List.replicate (40 - (e1.length + e2.length)) 0)
          ++ dst.drop 40) 40 MAGIC_FOOTER_ENCODED
        = writeAt (((e1 ++ e2) ++ List.replicate (40 - (e1.length + e2.length)) 0)
            ++ (dst.drop 40).take 8 ++ (dst.drop 40).drop 8)
            ((e1 ++ e2) ++ List.replicate (40 - (e1.length + e2.length)) (0 : Nat)).length
            MAGIC_FOOTER_ENCODED := by
          rw [← hpos, List.append_assoc ((e1 ++ e2) ++ _), List.take_append_drop]
      _ = ((e1 ++ e2) ++ List.replicate (40 - (e1.length + e2.length)) 0)
            ++ MAGIC_FOOTER_ENCODED ++ (dst.drop 40).drop 8 := writeAt_append _ _ _ _ hl
      _ = ((e1 ++ e2) ++ List.replicate (40 - (e1.length + e2.length)) 0)
            ++ MAGIC_FOOTER_ENCODED ++ dst.drop 48 := by
          rw [List.drop_drop]
  rw [s1, s2, s3, s4]

theorem footerEncode_bytes (f : Footer) (dst : List Nat)
    (hlen : 48 ≤ dst.length)
    (hfit : (blockHandleEnc f.meta_index).length + (blockHandleEnc f.index).length ≤ 40) :
    Footer.encode f dst =
      some (blockHandleEnc f.meta_index ++ blockHandleEnc f.index
        ++ List.replicate
            (40 - ((blockHandleEnc f.meta_index).length + (blockHandleEnc f.index).length)) 0
        ++ MAGIC_FOOTER_ENCODED ++ dst.drop 48) := by
  have hful : FULL_FOOTER_LENGTH = 48 := by decide
  have c1 : ¬ (dst.length < FULL_FOOTER_LENGTH) := by omega
  have c2 : ¬ (dst.length < (blockHandleEnc f.meta_index).length) := by omega
  have c3 : ¬ (dst.length - (blockHandleEnc f.meta_index).length
      < (blockHandleEnc f.index).length) := by omega
  simp only [Footer.encode, if_neg c1, if_neg c2, if_neg c3, FOOTER_LENGTH]
  exact congrArg some
    (footer_writeAt_chain (blockHandleEnc f.meta_index) (blockHandleEnc f.index) dst hlen hfit)

theorem footerEncode_length (f : Footer) (dst out : List Nat)
    (h : Footer.encode f dst = some out) : out.length = dst.length := by
  simp only [Footer.encode] at h
  split at h
  · exact absurd h (by simp)
  split at h
  · exact absurd h (by simp)
  split at h
  · exact absurd h (by simp)
  rename_i c1 c2 c3
  have e48 : FULL_FOOTER_LENGTH = 48 := by decide
  have e40 : FOOTER_LENGTH = 40 := by decide
  have hc1 : 48 ≤ dst.length := by omega
  injection h with h
  subst h
  have l1 : (writeAt dst 0 (blockHandleEnc f.meta_index)).length = dst.length :=
    writeAt_length _ _ _ (by omega)
  have l2 : (writeAt (writeAt dst 0 (blockHandleEnc f.meta_index))
      (blockHandleEnc f.meta_index).length (blockHandleEnc f.index)).length = dst.length := by
    rw [writeAt_length _ _ _ (by rw [l1]; omega), l1]
  have l3 : (writeAt (writeAt (writeAt dst 0 (blockHandleEnc f.meta_index))
      (blockHandleEnc f.meta_index).length (blockHandleEnc f.index))
      ((blockHandleEnc f.meta_index).length + (blockHandleEnc f.index).length)
      (List.replicate (FOOTER_LENGTH
        - ((blockHandleEnc f.meta_index).length + (blockHandleEnc f.index).length)) 0)).length
      = dst.length := by
    have hfit : (blockHandleEnc f.meta_index).length + (blockHandleEnc f.index).length
        + (List.replicate (FOOTER_LENGTH
          - ((blockHandleEnc f.meta_index).length + (blockHandleEnc f.index).length))
          (0 : Nat)).length
        ≤ (writeAt (writeAt dst 0 (blockHandleEnc f.meta_index))
            (blockHandleEnc f.meta_index).length (blockHandleEnc f.index)).length := by
      rw [l2]
      simp only [List.length_replicate]
      omega
    rw [writeAt_length _ _ _ hfit, l2]
  have hfit4 : FOOTER_LENGTH + MAGIC_FOOTER_ENCODED.length
      ≤ (writeAt (writeAt (writeAt dst 0 (blockHandleEnc f.meta_index))
          (blockHandleEnc f.meta_index).length (blockHandleEnc f.index))
          ((blockHandleEnc f.meta_index).length + (blockHandleEnc f.index).length)
          (List.replicate (FOOTER_LENGTH
            - ((blockHandleEnc f.meta_index).length + (blockHandleEnc f.index).length))
            0)).length := by
    rw [l3]
    have em : MAGIC_FOOTER_ENCODED.length = 8 := by decide
    omega
  rw [writeAt_length _ _ _ hfit4, l3]

/-- C3 (corrected): `Footer::decode` succeeds exactly on buffers of length
exactly 48 whose bytes `[40, 48)` equal the magic constant, yielding the
metaindex handle decoded from offset 0 and the index handle decoded
immediately after it; every other buffer — shorter than 48, longer than 48
(because the assertion compares the whole tail `from[40..]` against the
8-byte magic), or with differing magic — is rejected. -/
theorem claim_C3 (src : List Nat) :
    Footer.decode src =
      if src.length = 48 ∧ src.drop 40 = MAGIC_FOOTER_ENCODED then
        some { meta_index := (blockHandleDec src).1,
               index := (blockHandleDec (src.drop (blockHandleDec src).2)).1 }
      else none := by
  have e48 : FULL_FOOTER_LENGTH = 48 := by decide
  have e40 : FOOTER_LENGTH = 40 := by decide
  unfold Footer.decode
  rw [e48, e40]
  by_cases h1 : src.length < 48
  · rw [if_pos h1, if_neg]
    rintro ⟨ha, _⟩
    omega
  · rw [if_neg h1]
    by_cases h2 : src.drop 40 = MAGIC_FOOTER_ENCODED
    · have hlen : src.length = 48 := by
        have hl := congrArg List.length h2
        have em : MAGIC_FOOTER_ENCODED.length = 8 := by decide
        simp only [List.length_drop] at hl
        omega
      rw [if_pos h2, if_pos ⟨hlen, h2⟩]
    · rw [if_neg h2, if_neg]
      rintro ⟨_, hb⟩
      exact h2 hb

/-- C3 counterexample: a 49-byte buffer whose last 8 bytes are exactly the
magic constant satisfies the claim's precondition (length ≥ 48, trailing
magic) yet `Footer::decode` rejects it. -/
theorem claim_C3_cex :
    48 ≤ (List.replicate 41 0 ++ MAGIC_FOOTER_ENCODED : List Nat).length ∧
    (List.replicate 41 0 ++ MAGIC_FOOTER_ENCODED : List Nat).drop
      ((List.replicate 41 0 ++ MAGIC_FOOTER_ENCODED : List Nat).length - 8)
      = MAGIC_FOOTER_ENCODED ∧
    Footer.decode (List.replicate 41 0 ++ MAGIC_FOOTER_ENCODED) = none :=
  ⟨by decide, by decide, by decide⟩

/-- C4 (corrected): footer round-trip holds for destination buffers of
length exactly 48 (u64-bounded handle fields): encoding and then decoding
the buffer recovers the footer. -/
theorem claim_C4 (f : Footer) (dst out : List Nat)
    (h1 : f.meta_index.offset < 2 ^ 64) (h2 : f.meta_index.size < 2 ^ 64)
    (h3 : f.index.offset < 2 ^ 64) (h4 : f.index.size < 2 ^ 64)
    (hlen : dst.length = 48)
    (henc : Footer.encode f dst = some out) :
    Footer.decode out = some f := by
  have hfit : (blockHandleEnc f.meta_index).length + (blockHandleEnc f.index).length ≤ 40 := by
    have a1 := blockHandleEnc_le f.meta_index h1 h2
    have a2 := blockHandleEnc_le f.index h3 h4
    omega
  have hb := footerEncode_bytes f dst (by omega) hfit
  rw [henc] at hb
  have hout := Option.some.inj hb
  subst hout
  have hdrop : dst.drop 48 = [] := List.drop_eq_nil_of_le (by omega)
  rw [hdrop, List.append_nil]
  have em : MAGIC_FOOTER_ENCODED.length = 8 := by decide
  have e48 : FULL_FOOTER_LENGTH = 48 := by decide
  have e40 : FOOTER_LENGTH = 40 := by decide
  have hlen40 : (blockHandleEnc f.meta_index ++ blockHandleEnc f.index
      ++ List.replicate
        (40 - ((blockHandleEnc f.meta_index).length + (blockHandleEnc f.index).length))
        0).length = 40 := by
    simp only [List.length_append, List.length_replicate]
    omega
  have hlen48 : (blockHandleEnc f.meta_index ++ blockHandleEnc f.index
      ++ List.replicate
        (40 - ((blockHandleEnc f.meta_index).length + (blockHandleEnc f.index).length))
        0 ++ MAGIC_FOOTER_ENCODED).length = 48 := by
    simp only [List.length_append, List.length_replicate]
    simp only [List.length_append] at hlen40
    omega
  unfold Footer.decode
  rw [e48, e40, if_neg (by omega), if_pos (List.drop_left' hlen40)]
  have hassoc : blockHandleEnc f.meta_index ++ blockHandleEnc f.index
      ++ List.replicate
        (40 - ((blockHandleEnc f.meta_index).length + (blockHandleEnc f.index).length))
        0 ++ MAGIC_FOOTER_ENCODED
      = blockHandleEnc f.meta_index ++ (blockHandleEnc f.index
        ++ (List.replicate
          (40 - ((blockHandleEnc f.meta_index).length + (blockHandleEnc f.index).length))
          0 ++ MAGIC_FOOTER_ENCODED)) := by
    simp [List.append_assoc]
  rw [hassoc, blockHandleDec_enc]
  simp only
  rw [List.drop_left' rfl, blockHandleDec_enc]

/-- C4 counterexample: with a 49-byte destination buffer — allowed by the
claim's "48-byte (or longer)" — encoding succeeds but decoding the buffer
fails instead of returning the footer. -/
theorem claim_C4_cex :
    (Footer.encode (Footer.new (BlockHandle.mk 44 4) (BlockHandle.mk 55 5))
      (List.replicate 49 0)).isSome = true ∧
    (Footer.encode (Footer.new (BlockHandle.mk 44 4) (BlockHandle.mk 55 5))
      (List.replicate 49 0)).bind Footer.decode = none :=
  ⟨by decide, by decide⟩

/-- C4 witness: a concrete footer encoded into a 48-byte buffer decodes
back to itself. -/
theorem claim_C4_witness :
    (44 : Nat) < 2 ^ 64 ∧ (4 : Nat) < 2 ^ 64 ∧ (55 : Nat) < 2 ^ 64 ∧ (5 : Nat) < 2 ^ 64 ∧
    (List.replicate 48 0 : List Nat).length = 48 ∧
    Footer.encode (Footer.new (BlockHandle.mk 44 4) (BlockHandle.mk 55 5))
      (List.replicate 48 0)
      = some ((Footer.encode (Footer.new (BlockHandle.mk 44 4) (BlockHandle.mk 55 5))
          (List.replicate 48 0)).getD []) ∧
    Footer.decode ((Footer.encode (Footer.new (BlockHandle.mk 44 4) (BlockHandle.mk 55 5))
        (List.replicate 48 0)).getD [])
      = some (Footer.new (BlockHandle.mk 44 4) (BlockHandle.mk 55 5)) :=
  ⟨by decide, by decide, by decide, by decide, by decide, by decide,
    claim_C4 (Footer.new (BlockHandle.mk 44 4) (BlockHandle.mk 55 5))
      (List.replicate 48 0)
      ((Footer.encode (Footer.new (BlockHandle.mk 44 4) (BlockHandle.mk 55 5))
        (List.replicate 48 0)).getD [])
      (by decide) (by decide) (by decide) (by decide) (by decide) (by decide)⟩

/-- C10 (confirmed): for u64-bounded handle fields and any destination of
length at least 48, `Footer::encode` writes the two encoded handles from
byte 0, zero padding up to byte 40, the magic at `[40, 48)`, and leaves
every byte from index 48 on unchanged. -/
theorem claim_C10 (f : Footer) (dst : List Nat)
    (h1 : f.meta_index.offset < 2 ^ 64) (h2 : f.meta_index.size < 2 ^ 64)
    (h3 : f.index.offset < 2 ^ 64) (h4 : f.index.size < 2 ^ 64)
    (h5 : 48 ≤ dst.length) :
    Footer.encode f dst =
      some (blockHandleEnc f.meta_index ++ blockHandleEnc f.index
        ++ List.replicate
            (40 - ((blockHandleEnc f.meta_index).length + (blockHandleEnc f.index).length)) 0
        ++ MAGIC_FOOTER_ENCODED ++ dst.drop 48) :=
  footerEncode_bytes f dst h5 (by
    have a1 := blockHandleEnc_le f.meta_index h1 h2
    have a2 := blockHandleEnc_le f.index h3 h4
    omega)

/-- C10 witness: encoding a concrete footer into a 50-byte buffer of sevens
produces exactly the handles, padding and magic in the first 48 bytes and
preserves the trailing two bytes. -/
theorem claim_C10_witness :
    (44 : Nat) < 2 ^ 64 ∧ (4 : Nat) < 2 ^ 64 ∧ (55 : Nat) < 2 ^ 64 ∧ (5 : Nat) < 2 ^ 64 ∧
    48 ≤ (List.replicate 50 7 : List Nat).length ∧
    Footer.encode (Footer.new (BlockHandle.mk 44 4) (BlockHandle.mk 55 5))
      (List.replicate 50 7)
      = some (blockHandleEnc (BlockHandle.mk 44 4) ++ blockHandleEnc (BlockHandle.mk 55 5)
        ++ List.replicate
            (40 - ((blockHandleEnc (BlockHandle.mk 44 4)).length
              + (blockHandleEnc (BlockHandle.mk 55 5)).length)) 0
        ++ MAGIC_FOOTER_ENCODED ++ (List.replicate 50 7 : List Nat).drop 48) :=
  ⟨by decide, by decide, by decide, by decide, by decide,
    claim_C10 _ _ (by decide) (by decide) (by decide) (by decide) (by decide)⟩

/-! ## Block builder and table builder lemmas -/

theorem BlockBuilder.add_some {b b' : BlockBuilder} {cmp : List Nat → List Nat → Ordering}
    {k v : List Nat} (h : b.add cmp k v = some b') : b'.buffer = b.buffer ++ [(k, v)] := by
  unfold BlockBuilder.add at h
  split at h
  · injection h with h
    subst h
    rfl
  · exact absurd h (by simp)

theorem BlockBuilder.add_none {b : BlockBuilder} {cmp : List Nat → List Nat → Ordering}
    {k : List Nat} (v : List Nat) (hne : b.buffer ≠ [])
    (hcmp : cmp b.lastKey k ≠ Ordering.lt) : b.add cmp k v = none := by
  unfold BlockBuilder.add
  rw [if_neg]
  rintro (h | h) <;> contradiction

theorem BlockBuilder.lastKey_concat (b : BlockBuilder) (l : List (List Nat × List Nat))
    (k v : List Nat) (h : b.buffer = l ++ [(k, v)]) : b.lastKey = k := by
  unfold BlockBuilder.lastKey
  rw [h]
  simp [List.getLastD_concat]

theorem writeDataBlock_opt {tb tb' : TableBuilder} {nk : List Nat}
    (h : writeDataBlock tb nk = some tb') : tb'.opt = tb.opt := by
  simp only [writeDataBlock] at h
  split at h
  · exact absurd h (by simp)
  · rw [Option.map_eq_some'] at h
    obtain ⟨ix, _, h2⟩ := h
    subst h2
    rfl

theorem addTB_struct {tb tb' : TableBuilder} {k v : List Nat}
    (h : addTB tb k v = some tb') :
    tb'.opt = tb.opt ∧ ∃ b, tb'.data_block.buffer = b ++ [(k, v)] := by
  unfold addTB at h
  split at h
  · exact absurd h (by simp)
  · rw [Option.bind_eq_some] at h
    obtain ⟨tb1, h1, h2⟩ := h
    rw [Option.map_eq_some'] at h2
    obtain ⟨db, hdb, h3⟩ := h2
    subst h3
    refine ⟨?_, tb1.data_block.buffer, BlockBuilder.add_some hdb⟩
    show tb1.opt = tb.opt
    split at h1
    · exact writeDataBlock_opt h1
    · injection h1 with h1
      subst h1
      rfl

/-- C1 (corrected): ordering is enforced for every add that does not cross
a block boundary: after a successful `add` of `k1`, if the next `add` of
`k2` does not trigger a data-block seal (size estimate within budget) and
`k1` is not strictly below `k2` under the configured comparator, that
`add` fails. (At a boundary-crossing add only the previous block's last
key is checked and the fresh block's own check is vacuous, so such an add
can be silently accepted — see the counterexample.) -/
theorem claim_C1 (tb tb' : TableBuilder) (k1 v1 k2 v2 : List Nat)
    (h1 : addTB tb k1 v1 = some tb')
    (h2 : ¬ tb'.opt.block_size < tb'.data_block.sizeEstimate)
    (h3 : tb'.opt.cmp k1 k2 ≠ Ordering.lt) :
    addTB tb' k2 v2 = none := by
  obtain ⟨hopt, b, hbuf⟩ := addTB_struct h1
  have hlast : tb'.data_block.lastKey = k1 := BlockBuilder.lastKey_concat _ b k1 v1 hbuf
  unfold addTB
  by_cases hp : tb'.prev_block_last_key ≠ [] ∧
      tb'.opt.cmp tb'.prev_block_last_key k2 ≠ Ordering.lt
  · rw [if_pos hp]
  · rw [if_neg hp, if_neg h2, Option.some_bind,
      BlockBuilder.add_none v2 (by rw [hbuf]; simp) (by rw [hlast]; exact h3)]
    rfl

/-- C1 counterexample: with a 10-byte block-size budget, adding key `[2]`
and then the smaller key `[1]` succeeds — the second add seals a block, so
only the (empty) previous-block key is checked and the out-of-order key is
silently accepted, although the comparator orders `[2]` above `[1]`. -/
theorem claim_C1_cex :
    ((addTB (TableBuilder.new { defaultOptions with block_size := 10 }) [2] [9]).bind
      fun t => addTB t [1] [9]).isSome = true ∧
    ({ defaultOptions with block_size := 10 } : Options).cmp [2] [1] ≠ Ordering.lt :=
  ⟨by decide, by decide⟩

set_option maxRecDepth 20000 in
/-- C1 witness: with the default 4096-byte budget, adding key `[1]` twice
makes the second add (no block boundary crossed) fail. -/
theorem claim_C1_witness :
    addTB (TableBuilder.new defaultOptions) [1] [0]
      = some ((addTB (TableBuilder.new defaultOptions) [1] [0]).getD
          (TableBuilder.new defaultOptions)) ∧
    ¬ ((addTB (TableBuilder.new defaultOptions) [1] [0]).getD
        (TableBuilder.new defaultOptions)).opt.block_size
      < ((addTB (TableBuilder.new defaultOptions) [1] [0]).getD
          (TableBuilder.new defaultOptions)).data_block.sizeEstimate ∧
    ((addTB (TableBuilder.new defaultOptions) [1] [0]).getD
        (TableBuilder.new defaultOptions)).opt.cmp [1] [1] ≠ Ordering.lt ∧
    addTB ((addTB (TableBuilder.new defaultOptions) [1] [0]).getD
        (TableBuilder.new defaultOptions)) [1] [0] = none :=
  ⟨rfl, by decide, by decide,
    claim_C1 (TableBuilder.new defaultOptions)
      ((addTB (TableBuilder.new defaultOptions) [1] [0]).getD (TableBuilder.new defaultOptions))
      [1] [0] [1] [0] rfl (by decide) (by decide)⟩

/-- C6 (confirmed): `write_block` returns a handle whose offset is the
running output offset before the write and whose size is the length of the
(possibly compressed) contents — tag and checksum bytes excluded — and
advances the offset by exactly contents length + 1 + 4. -/
theorem claim_C6 (tb : TableBuilder) (block : List Nat) (ctype : CompressionType) :
    (writeBlock tb block ctype).1.offset = tb.offset ∧
    (writeBlock tb block ctype).1.size = (framePayload tb.opt ctype block).length ∧
    (writeBlock tb block ctype).2.offset
      = tb.offset + (framePayload tb.opt ctype block).length + 1 + 4 :=
  ⟨rfl, rfl, rfl⟩

/-- C7 (confirmed): `write_block` emits, in order, the (possibly
compressed) contents, the one-byte compression tag, then 4 little-endian
bytes holding the masked CRC32-C computed over the contents followed by
the tag. -/
theorem claim_C7 (tb : TableBuilder) (block : List Nat) (ctype : CompressionType) :
    (writeBlock tb block ctype).2.out
      = tb.out ++ framePayload tb.opt ctype block ++ [tagByte ctype]
        ++ le32 (mask_crc (crc32c (framePayload tb.opt ctype block ++ [tagByte ctype]))) := by
  simp [writeBlock, List.append_assoc]

/-! ## Size accounting (C5) -/

theorem writeBlock_inv {tb : TableBuilder} (b : List Nat) (c : CompressionType)
    (h : tb.offset = tb.out.length) :
    ((writeBlock tb b c).2).offset = ((writeBlock tb b c).2).out.length := by
  simp only [writeBlock, List.length_append, le32, List.length_cons, List.length_nil]
  omega

theorem writeDataBlock_inv {tb tb' : TableBuilder} {nk : List Nat}
    (h : writeDataBlock tb nk = some tb') (hi : tb.offset = tb.out.length) :
    tb'.offset = tb'.out.length := by
  simp only [writeDataBlock] at h
  split at h
  · exact absurd h (by simp)
  · rw [Option.map_eq_some'] at h
    obtain ⟨ix, _, h2⟩ := h
    subst h2
    exact writeBlock_inv _ _ (hi : ({ tb with prev_block_last_key := tb.data_block.lastKey
      } : TableBuilder).offset = _)

theorem addTB_inv {tb tb' : TableBuilder} {k v : List Nat}
    (h : addTB tb k v = some tb') (hi : tb.offset = tb.out.length) :
    tb'.offset = tb'.out.length := by
  unfold addTB at h
  split at h
  · exact absurd h (by simp)
  · rw [Option.bind_eq_some] at h
    obtain ⟨tb1, h1, h2⟩ := h
    rw [Option.map_eq_some'] at h2
    obtain ⟨db, _, h3⟩ := h2
    subst h3
    show tb1.offset = tb1.out.length
    split at h1
    · exact writeDataBlock_inv h1 hi
    · injection h1 with h1
      subst h1
      exact hi

theorem addAll_inv : ∀ (es : List (List Nat × List Nat)) (tb tb' : TableBuilder),
    addAll tb es = some tb' → tb.offset = tb.out.length → tb'.offset = tb'.out.length := by
  intro es
  induction es with
  | nil =>
    intro tb tb' h hi
    injection h with h
    subst h
    exact hi
  | cons kv rest ih =>
    intro tb tb' h hi
    simp only [addAll] at h
    rw [Option.bind_eq_some] at h
    obtain ⟨tb1, h1, h2⟩ := h
    exact ih tb1 tb' h2 (addTB_inv h1 hi)

theorem finishTB_inv {tb : TableBuilder} {n : Nat} {out : List Nat}
    (h : finishTB tb = some (n, out)) (hi : tb.offset = tb.out.length) :
    n = out.length := by
  unfold finishTB at h
  rw [Option.bind_eq_some] at h
  obtain ⟨tb1, h1, h⟩ := h
  have hi1 : tb1.offset = tb1.out.length := by
    split at h1
    · exact writeDataBlock_inv h1 hi
    · injection h1 with h1
      subst h1
      exact hi
  rw [Option.bind_eq_some] at h
  obtain ⟨pr, hpr, h⟩ := h
  have hi2 : pr.2.offset = pr.2.out.length := by
    cases hfb : tb1.filter_block with
    | some fb =>
      rw [hfb] at hpr
      simp only at hpr
      split at hpr
      · exact absurd hpr (by simp)
      · rw [Option.map_eq_some'] at hpr
        obtain ⟨mix, _, h2⟩ := hpr
        subst h2
        exact writeBlock_inv _ _ (hi1 : ({ tb1 with filter_block := none
          } : TableBuilder).offset = _)
    | none =>
      rw [hfb] at hpr
      injection hpr with hpr
      subst hpr
      exact hi1
  rw [Option.map_eq_some'] at h
  obtain ⟨fbytes, hfb2, h⟩ := h
  have hlen : fbytes.length = 48 := by
    have := footerEncode_length _ _ _ hfb2
    simpa using this
  have hi3 := writeBlock_inv pr.1.finish pr.2.opt.compression_type hi2
  have hi4 := writeBlock_inv
    ((writeBlock pr.2 pr.1.finish pr.2.opt.compression_type).2).index_block.finish
    ((writeBlock pr.2 pr.1.finish pr.2.opt.compression_type).2).opt.compression_type hi3
  injection h with hn hout
  subst hn
  subst hout
  simp only [List.length_append, hlen]
  omega

/-- C5 (confirmed): for every entry sequence accepted by the pipeline, the
byte count returned by `finish` equals the total number of bytes emitted
to the sink over the builder's whole lifetime. -/
theorem claim_C5 (opt : Options) (es : List (List Nat × List Nat)) (r : Nat × List Nat)
    (h : buildTable opt es = some r) : r.1 = r.2.length := by
  unfold buildTable at h
  rw [Option.bind_eq_some] at h
  obtain ⟨tbm, h1, h2⟩ := h
  obtain ⟨n, out⟩ := r
  exact finishTB_inv h2 (addAll_inv es _ tbm h1 rfl)

set_option maxRecDepth 40000 in
/-- C5 witness: a concrete two-entry build returns exactly the length of
the bytes it wrote. -/
theorem claim_C5_witness :
    buildTable defaultOptions [([1], [2]), ([3], [4])]
      = some ((buildTable defaultOptions [([1], [2]), ([3], [4])]).getD (0, [])) ∧
    ((buildTable defaultOptions [([1], [2]), ([3], [4])]).getD (0, [])).1
      = ((buildTable defaultOptions [([1], [2]), ([3], [4])]).getD (0, [])).2.length :=
  ⟨by decide,
    claim_C5 defaultOptions [([1], [2]), ([3], [4])]
      ((buildTable defaultOptions [([1], [2]), ([3], [4])]).getD (0, [])) (by decide)⟩

/-! ## Structure of `finish` (C2, C8) -/

theorem writeBlock_out (tb : TableBuilder) (b : List Nat) (c : CompressionType) :
    ((writeBlock tb b c).2).out = tb.out ++ writeFrame tb.opt c b := by
  simp [writeBlock, writeFrame, frameChecksum, List.append_assoc]

theorem writeDataBlock_out {tb tb' : TableBuilder} {nk : List Nat}
    (h : writeDataBlock tb nk = some tb') :
    tb'.out = tb.out ++ writeFrame tb.opt tb.opt.compression_type tb.data_block.finish := by
  simp only [writeDataBlock] at h
  split at h
  · exact absurd h (by simp)
  · rw [Option.map_eq_some'] at h
    obtain ⟨ix, _, h2⟩ := h
    subst h2
    exact writeBlock_out { tb with prev_block_last_key := tb.data_block.lastKey } _ _

theorem writeDataBlock_filter {tb tb' : TableBuilder} {nk : List Nat}
    (h : writeDataBlock tb nk = some tb') (hs : tb.filter_block.isSome = true) :
    tb'.filter_block.isSome = true := by
  simp only [writeDataBlock] at h
  split at h
  · exact absurd h (by simp)
  · rw [Option.map_eq_some'] at h
    obtain ⟨ix, _, h2⟩ := h
    subst h2
    simpa using hs

theorem addTB_filter {tb tb' : TableBuilder} {k v : List Nat}
    (h : addTB tb k v = some tb') (hs : tb.filter_block.isSome = true) :
    tb'.filter_block.isSome = true := by
  unfold addTB at h
  split at h
  · exact absurd h (by simp)
  · rw [Option.bind_eq_some] at h
    obtain ⟨tb1, h1, h2⟩ := h
    rw [Option.map_eq_some'] at h2
    obtain ⟨db, _, h3⟩ := h2
    subst h3
    have hs1 : tb1.filter_block.isSome = true := by
      split at h1
      · exact writeDataBlock_filter h1 hs
      · injection h1 with h1
        subst h1
        exact hs
    simpa using hs1

theorem addAll_filter : ∀ (es : List (List Nat × List Nat)) (tb tb' : TableBuilder),
    addAll tb es = some tb' → tb.filter_block.isSome = true →
    tb'.filter_block.isSome = true := by
  intro es
  induction es with
  | nil =>
    intro tb tb' h hs
    injection h with h
    subst h
    exact hs
  | cons kv rest ih =>
    intro tb tb' h hs
    simp only [addAll] at h
    rw [Option.bind_eq_some] at h
    obtain ⟨tb1, h1, h2⟩ := h
    exact ih tb1 tb' h2 (addTB_filter h1 hs)

theorem addAll_opt : ∀ (es : List (List Nat × List Nat)) (tb tb' : TableBuilder),
    addAll tb es = some tb' → tb'.opt = tb.opt := by
  intro es
  induction es with
  | nil =>
    intro tb tb' h
    injection h with h
    subst h
    rfl
  | cons kv rest ih =>
    intro tb tb' h
    simp only [addAll] at h
    rw [Option.bind_eq_some] at h
    obtain ⟨tb1, h1, h2⟩ := h
    rw [ih tb1 tb' h2, (addTB_struct h1).1]

theorem writeBlock_opt2 (tb : TableBuilder) (b : List Nat) (c : CompressionType) :
    ((writeBlock tb b c).2).opt = tb.opt := rfl

theorem writeBlock_index (tb : TableBuilder) (b : List Nat) (c : CompressionType) :
    ((writeBlock tb b c).2).index_block = tb.index_block := rfl

theorem finishTB_struct (tb : TableBuilder) (n : Nat) (out : List Nat)
    (h : finishTB tb = some (n, out)) :
    ∃ tb1 fSeg mixBuf,
      ((tb.data_block.entriesCount = 0 ∧ tb1 = tb) ∨
       (0 < tb.data_block.entriesCount ∧
        writeDataBlock tb (tb.opt.find_short_succ tb.data_block.lastKey) = some tb1 ∧
        tb1.out = tb.out ++ writeFrame tb.opt tb.opt.compression_type tb.data_block.finish)) ∧
      ((∃ fb, tb1.filter_block = some fb ∧
          fSeg = writeFrame tb.opt CompressionType.CompressionNone fb.finish ∧
          mixBuf = [(filterKey fb, blockHandleEnc (BlockHandle.mk tb1.offset
            (framePayload tb.opt CompressionType.CompressionNone fb.finish).length))]) ∨
       (tb1.filter_block = none ∧ fSeg = [] ∧ mixBuf = [])) ∧
      ∃ fo fbytes, Footer.encode fo (List.replicate 48 0) = some fbytes ∧
        fbytes.length = 48 ∧
        out = tb1.out ++ fSeg
          ++ writeFrame tb.opt tb.opt.compression_type (BlockBuilder.mk mixBuf).finish
          ++ writeFrame tb.opt tb.opt.compression_type tb1.index_block.finish
          ++ fbytes := by
  unfold finishTB at h
  rw [Option.bind_eq_some] at h
  obtain ⟨tb1, h1, h⟩ := h
  have hopt1 : tb1.opt = tb.opt := by
    split at h1
    · exact writeDataBlock_opt h1
    · injection h1 with h1
      subst h1
      rfl
  have hseal : (tb.data_block.entriesCount = 0 ∧ tb1 = tb) ∨
      (0 < tb.data_block.entriesCount ∧
       writeDataBlock tb (tb.opt.find_short_succ tb.data_block.lastKey) = some tb1 ∧
       tb1.out = tb.out ++ writeFrame tb.opt tb.opt.compression_type tb.data_block.finish) := by
    split at h1
    · rename_i hc
      exact Or.inr ⟨hc, h1, writeDataBlock_out h1⟩
    · rename_i hc
      injection h1 with h1
      subst h1
      exact Or.inl ⟨by omega, rfl⟩
  rw [Option.bind_eq_some] at h
  obtain ⟨pr, hpr, h⟩ := h
  refine ⟨tb1, ?_⟩
  cases hfb : tb1.filter_block with
  | some fb =>
    rw [hfb] at hpr
    simp only [] at hpr
    split at hpr
    · exact absurd hpr (by simp)
    · rw [Option.map_eq_some'] at hpr
      obtain ⟨mix, hmix, hpr2⟩ := hpr
      have hmixbuf : mix = BlockBuilder.mk [(filterKey fb,
          blockHandleEnc (BlockHandle.mk tb1.offset
            (framePayload tb.opt CompressionType.CompressionNone fb.finish).length))] := by
        have hb := BlockBuilder.add_some hmix
        obtain ⟨mb⟩ := mix
        simp only [BlockBuilder.new, List.nil_append] at hb
        rw [hb]
        have : ((writeBlock { tb1 with filter_block := none }
            fb.finish CompressionType.CompressionNone).1)
            = BlockHandle.mk tb1.offset
              (framePayload tb.opt CompressionType.CompressionNone fb.finish).length := by
          simp [writeBlock]
          rw [hopt1]
        rw [this]
      subst hpr2
      simp only [] at h
      rw [Option.map_eq_some'] at h
      obtain ⟨fbytes, henc, heq⟩ := h
      injection heq with hn hout
      subst hn
      subst hout
      refine ⟨writeFrame tb.opt CompressionType.CompressionNone fb.finish,
        [(filterKey fb, blockHandleEnc (BlockHandle.mk tb1.offset
          (framePayload tb.opt CompressionType.CompressionNone fb.finish).length))],
        hseal, Or.inl ⟨fb, rfl, rfl, rfl⟩, Footer.new _ _, fbytes, henc, ?_, ?_⟩
      · have := footerEncode_length _ _ _ henc
        simpa using this
      · rw [writeBlock_out, writeBlock_out, writeBlock_out, hmixbuf]
        simp [writeBlock_opt2, writeBlock_index, hopt1, List.append_assoc]
  | none =>
    rw [hfb] at hpr
    injection hpr with hpr
    subst hpr
    simp only [] at h
    rw [Option.map_eq_some'] at h
    obtain ⟨fbytes, henc, heq⟩ := h
    injection heq with hn hout
    subst hn
    subst hout
    refine ⟨[], [], hseal, Or.inr ⟨rfl, rfl, rfl⟩, Footer.new _ _, fbytes, henc, ?_, ?_⟩
    · have := footerEncode_length _ _ _ henc
      simpa using this
    · rw [writeBlock_out, writeBlock_out]
      simp [writeBlock_opt2, writeBlock_index, hopt1, List.append_assoc, BlockBuilder.new]

/-- C8 (confirmed): `finish` emits, in order: the pending data block (only
if it has entries, sealed with the comparator's short successor of its
last key as boundary hint, framed with the configured compression), then —
when a filter block is present — the filter block framed with compression
type "none", then the metaindex block and the index block framed with the
configured compression, and finally the 48-byte footer appended raw
(flushing the pure sink is a no-op). -/
theorem claim_C8 (tb : TableBuilder) (n : Nat) (out : List Nat)
    (h : finishTB tb = some (n, out)) :
    ∃ tb1 fSeg mixBuf,
      ((tb.data_block.entriesCount = 0 ∧ tb1 = tb) ∨
       (0 < tb.data_block.entriesCount ∧
        writeDataBlock tb (tb.opt.find_short_succ tb.data_block.lastKey) = some tb1 ∧
        tb1.out = tb.out ++ writeFrame tb.opt tb.opt.compression_type tb.data_block.finish)) ∧
      ((∃ fb, tb1.filter_block = some fb ∧
          fSeg = writeFrame tb.opt CompressionType.CompressionNone fb.finish ∧
          mixBuf = [(filterKey fb, blockHandleEnc (BlockHandle.mk tb1.offset
            (framePayload tb.opt CompressionType.CompressionNone fb.finish).length))]) ∨
       (tb1.filter_block = none ∧ fSeg = [] ∧ mixBuf = [])) ∧
      ∃ fo fbytes, Footer.encode fo (List.replicate 48 0) = some fbytes ∧
        fbytes.length = 48 ∧
        out = tb1.out ++ fSeg
          ++ writeFrame tb.opt tb.opt.compression_type (BlockBuilder.mk mixBuf).finish
          ++ writeFrame tb.opt tb.opt.compression_type tb1.index_block.finish
          ++ fbytes :=
  finishTB_struct tb n out h

/-- C2 (corrected): `new_no_filter` installs the no-op filter policy but
still populates the filter-block slot, so `finish` does write a filter
block (framed uncompressed) and does add exactly one filter entry to the
Metaindex Block; the layout matches any filtered table rather than a
filter-less one. -/
theorem claim_C2 (opt : Options) (es : List (List Nat × List Nat)) (n : Nat) (out : List Nat)
    (h : (addAll (TableBuilder.new_no_filter opt) es).bind finishTB = some (n, out)) :
    ∃ (tb1 : TableBuilder) (fb : FilterBlockBuilder) (fbytes : List Nat),
      tb1.filter_block = some fb ∧
      fbytes.length = 48 ∧
      out = tb1.out
        ++ writeFrame opt CompressionType.CompressionNone fb.finish
        ++ writeFrame opt opt.compression_type
            (BlockBuilder.mk [(filterKey fb, blockHandleEnc (BlockHandle.mk tb1.offset
              (framePayload opt CompressionType.CompressionNone fb.finish).length))]).finish
        ++ writeFrame opt opt.compression_type tb1.index_block.finish
        ++ fbytes := by
  rw [Option.bind_eq_some] at h
  obtain ⟨tbm, hadd, hfin⟩ := h
  have hOpt : tbm.opt = { opt with filter_policy := noFilterPolicy } :=
    addAll_opt es _ tbm hadd
  have hFil : tbm.filter_block.isSome = true := addAll_filter es _ tbm hadd rfl
  obtain ⟨tb1, fSeg, mixBuf, hseal, hfil, fo, fbytes, henc, hlen, hout⟩ :=
    finishTB_struct tbm n out hfin
  have hFil1 : tb1.filter_block.isSome = true := by
    rcases hseal with ⟨_, rfl⟩ | ⟨_, hw, _⟩
    · exact hFil
    · exact writeDataBlock_filter hw hFil
  rcases hfil with ⟨fb, hfb, hfseg, hmix⟩ | ⟨hnone, _, _⟩
  · subst hfseg
    subst hmix
    refine ⟨tb1, fb, fbytes, hfb, hlen, ?_⟩
    rw [hOpt] at hout
    exact hout
  · rw [hnone] at hFil1
    exact absurd hFil1 (by simp)

set_option maxRecDepth 40000 in
/-- C2 counterexample: finishing the builder produced by `new_no_filter`
(whose filter slot is occupied by the no-op policy's filter builder)
produces a different byte stream than finishing the very same state with
the filter slot empty — the state the claim describes, in which `finish`
writes no filter frame and adds no metaindex entry. The claim is thus
false at this concrete input. -/
theorem claim_C2_cex :
    (finishTB (TableBuilder.new_no_filter defaultOptions)).isSome = true ∧
    (TableBuilder.new_no_filter defaultOptions).filter_block.isSome = true ∧
    finishTB (TableBuilder.new_no_filter defaultOptions)
      ≠ finishTB { TableBuilder.new_no_filter defaultOptions with filter_block := none } :=
  ⟨by decide, by decide, by decide⟩

set_option maxRecDepth 40000 in
/-- C2 witness: the empty no-filter build carries its filter block all the
way into `finish`, which writes it and the single metaindex entry. -/
theorem claim_C2_witness :
    (addAll (TableBuilder.new_no_filter defaultOptions) []).bind finishTB
      = some (((addAll (TableBuilder.new_no_filter defaultOptions) []).bind finishTB).getD
          (0, [])) ∧
    (∃ (tb1 : TableBuilder) (fb : FilterBlockBuilder) (fbytes : List Nat),
      tb1.filter_block = some fb ∧
      fbytes.length = 48 ∧
      (((addAll (TableBuilder.new_no_filter defaultOptions) []).bind finishTB).getD (0, [])).2
        = tb1.out
        ++ writeFrame defaultOptions CompressionType.CompressionNone fb.finish
        ++ writeFrame defaultOptions defaultOptions.compression_type
            (BlockBuilder.mk [(filterKey fb, blockHandleEnc (BlockHandle.mk tb1.offset
              (framePayload defaultOptions CompressionType.CompressionNone
                fb.finish).length))]).finish
        ++ writeFrame defaultOptions defaultOptions.compression_type tb1.index_block.finish
        ++ fbytes) :=
  ⟨by decide,
    claim_C2 defaultOptions []
      (((addAll (TableBuilder.new_no_filter defaultOptions) []).bind finishTB).getD (0, [])).1
      (((addAll (TableBuilder.new_no_filter defaultOptions) []).bind finishTB).getD (0, [])).2
      (by decide)⟩

set_option maxRecDepth 40000 in
/-- C8 witness: finishing a fresh builder concretely satisfies the emission
order of `finish`. -/
theorem claim_C8_witness :
    finishTB (TableBuilder.new defaultOptions)
      = some ((finishTB (TableBuilder.new defaultOptions)).getD (0, [])) ∧
    (∃ tb1 fSeg mixBuf,
      (((TableBuilder.new defaultOptions).data_block.entriesCount = 0
          ∧ tb1 = TableBuilder.new defaultOptions) ∨
       (0 < (TableBuilder.new defaultOptions).data_block.entriesCount ∧
        writeDataBlock (TableBuilder.new defaultOptions)
          ((TableBuilder.new defaultOptions).opt.find_short_succ
            (TableBuilder.new defaultOptions).data_block.lastKey) = some tb1 ∧
        tb1.out = (TableBuilder.new defaultOptions).out
          ++ writeFrame (TableBuilder.new defaultOptions).opt
              (TableBuilder.new defaultOptions).opt.compression_type
              (TableBuilder.new defaultOptions).data_block.finish)) ∧
      ((∃ fb, tb1.filter_block = some fb ∧
          fSeg = writeFrame (TableBuilder.new defaultOptions).opt
            CompressionType.CompressionNone fb.finish ∧
          mixBuf = [(filterKey fb, blockHandleEnc (BlockHandle.mk tb1.offset
            (framePayload (TableBuilder.new defaultOptions).opt
              CompressionType.CompressionNone fb.finish).length))]) ∨
       (tb1.filter_block = none ∧ fSeg = [] ∧ mixBuf = [])) ∧
      ∃ fo fbytes, Footer.encode fo (List.replicate 48 0) = some fbytes ∧
        fbytes.length = 48 ∧
        ((finishTB (TableBuilder.new defaultOptions)).getD (0, [])).2
          = tb1.out ++ fSeg
          ++ writeFrame (TableBuilder.new defaultOptions).opt
              (TableBuilder.new defaultOptions).opt.compression_type
              (BlockBuilder.mk mixBuf).finish
          ++ writeFrame (TableBuilder.new defaultOptions).opt
              (TableBuilder.new defaultOptions).opt.compression_type
              tb1.index_block.finish
          ++ fbytes) :=
  ⟨by decide,
    claim_C8 (TableBuilder.new defaultOptions)
      ((finishTB (TableBuilder.new defaultOptions)).getD (0, [])).1
      ((finishTB (TableBuilder.new defaultOptions)).getD (0, [])).2
      (by decide)⟩

/-! ## Checksum integrity (C9) -/

theorem crcStepBit_lt {s : Nat} (h : s < 2 ^ 32) : crcStepBit s < 2 ^ 32 := by
  unfold crcStepBit
  split
  · exact Nat.xor_lt_two_pow (by omega) (by decide)
  · omega

theorem xor_poly_ge {a : Nat} (h : a < 2 ^ 31) : 2 ^ 31 ≤ a ^^^ CASTAGNOLI_POLY := by
  by_contra hlt
  push_neg at hlt
  have h1 : (a ^^^ CASTAGNOLI_POLY).testBit 31 = false := Nat.testBit_lt_two_pow hlt
  rw [Nat.testBit_xor, Nat.testBit_lt_two_pow h] at h1
  have h2 : CASTAGNOLI_POLY.testBit 31 = true := by decide
  rw [h2] at h1
  simp at h1

theorem crcStepBit_inj {s1 s2 : Nat} (h1 : s1 < 2 ^ 32) (h2 : s2 < 2 ^ 32)
    (h : crcStepBit s1 = crcStepBit s2) : s1 = s2 := by
  unfold crcStepBit at h
  by_cases p1 : s1 % 2 = 1 <;> by_cases p2 : s2 % 2 = 1
  · rw [if_pos p1, if_pos p2] at h
    have e1 : s1 / 2 = s2 / 2 := by
      have e := congrArg (· ^^^ CASTAGNOLI_POLY) h
      simpa [Nat.xor_cancel_right] using e
    omega
  · rw [if_pos p1, if_neg p2] at h
    have hg := xor_poly_ge (show s1 / 2 < 2 ^ 31 by omega)
    rw [h] at hg
    omega
  · rw [if_neg p1, if_pos p2] at h
    have hg := xor_poly_ge (show s2 / 2 < 2 ^ 31 by omega)
    rw [← h] at hg
    omega
  · rw [if_neg p1, if_neg p2] at h
    omega

theorem crcBits_lt : ∀ (k : Nat) {s : Nat}, s < 2 ^ 32 → crcBits k s < 2 ^ 32 := by
  intro k
  induction k with
  | zero => intro s hs; simpa [crcBits] using hs
  | succ k ih => intro s hs; exact ih (crcStepBit_lt hs)

theorem crcBits_inj : ∀ (k : Nat) {s1 s2 : Nat}, s1 < 2 ^ 32 → s2 < 2 ^ 32 →
    crcBits k s1 = crcBits k s2 → s1 = s2 := by
  intro k
  induction k with
  | zero => intro s1 s2 _ _ h; simpa [crcBits] using h
  | succ k ih =>
    intro s1 s2 h1 h2 h
    exact crcStepBit_inj h1 h2 (ih (crcStepBit_lt h1) (crcStepBit_lt h2) h)

theorem crcStepByte_lt {s b : Nat} (hs : s < 2 ^ 32) (hb : b < 256) :
    crcStepByte s b < 2 ^ 32 :=
  crcBits_lt 8 (Nat.xor_lt_two_pow hs (by omega))

theorem crcStepByte_inj_state {s1 s2 b : Nat} (hs1 : s1 < 2 ^ 32) (hs2 : s2 < 2 ^ 32)
    (hb : b < 256) (h : crcStepByte s1 b = crcStepByte s2 b) : s1 = s2 := by
  unfold crcStepByte at h
  have e := crcBits_inj 8 (Nat.xor_lt_two_pow hs1 (by omega))
    (Nat.xor_lt_two_pow hs2 (by omega)) h
  have e2 := congrArg (· ^^^ b) e
  simpa [Nat.xor_cancel_right] using e2

theorem crcStepByte_ne_byte {s b1 b2 : Nat} (hs : s < 2 ^ 32) (hb1 : b1 < 256)
    (hb2 : b2 < 256) (hne : b1 ≠ b2) : crcStepByte s b1 ≠ crcStepByte s b2 := by
  intro h
  unfold crcStepByte at h
  have e := crcBits_inj 8 (Nat.xor_lt_two_pow hs (by omega))
    (Nat.xor_lt_two_pow hs (by omega)) h
  have e2 := congrArg (fun x => s ^^^ x) e
  simp only [← Nat.xor_assoc, Nat.xor_self, Nat.zero_xor] at e2
  exact hne e2

theorem foldl_crc_lt : ∀ (l : List Nat) (s : Nat), s < 2 ^ 32 → (∀ x ∈ l, x < 256) →
    l.foldl crcStepByte s < 2 ^ 32 := by
  intro l
  induction l with
  | nil => intro s hs _; simpa using hs
  | cons a t ih =>
    intro s hs hb
    simp only [List.foldl_cons]
    exact ih _ (crcStepByte_lt hs (hb a (by simp))) fun x hx => hb x (by simp [hx])

theorem foldl_crc_ne : ∀ (l : List Nat) (s1 s2 : Nat), s1 < 2 ^ 32 → s2 < 2 ^ 32 →
    (∀ x ∈ l, x < 256) → s1 ≠ s2 →
    l.foldl crcStepByte s1 ≠ l.foldl crcStepByte s2 := by
  intro l
  induction l with
  | nil => intro s1 s2 _ _ _ hne; simpa using hne
  | cons a t ih =>
    intro s1 s2 h1 h2 hb hne
    simp only [List.foldl_cons]
    exact ih _ _ (crcStepByte_lt h1 (hb a (by simp))) (crcStepByte_lt h2 (hb a (by simp)))
      (fun x hx => hb x (by simp [hx]))
      fun h => hne (crcStepByte_inj_state h1 h2 (hb a (by simp)) h)

theorem crc32c_lt (l : List Nat) (hl : ∀ x ∈ l, x < 256) : crc32c l < 2 ^ 32 :=
  Nat.xor_lt_two_pow (by decide) (foldl_crc_lt l _ (by decide) hl)

theorem crc32c_flip_ne (u v : List Nat) (b i : Nat)
    (hu : ∀ x ∈ u, x < 256) (hv : ∀ x ∈ v, x < 256) (hb : b < 256) (hi : i < 8) :
    crc32c (u ++ (b ^^^ 2 ^ i) :: v) ≠ crc32c (u ++ b :: v) := by
  have hpow : (2 : Nat) ^ i < 256 := by
    have := Nat.pow_le_pow_right (show 0 < 2 by omega) (show i ≤ 7 by omega)
    omega
  have hbflip : b ^^^ 2 ^ i < 256 := by
    have := Nat.xor_lt_two_pow (show b < 2 ^ 8 by omega) (show 2 ^ i < 2 ^ 8 by omega)
    omega
  have hne : b ^^^ 2 ^ i ≠ b := by
    intro he
    have e2 := congrArg (fun x => b ^^^ x) he
    simp only [← Nat.xor_assoc, Nat.xor_self, Nat.zero_xor] at e2
    have := Nat.two_pow_pos i
    omega
  unfold crc32c
  intro h
  have h2 : (u ++ (b ^^^ 2 ^ i) :: v).foldl crcStepByte 0xFFFFFFFF
      = (u ++ b :: v).foldl crcStepByte 0xFFFFFFFF := by
    have e2 := congrArg (fun x => 0xFFFFFFFF ^^^ x) h
    simpa only [← Nat.xor_assoc, Nat.xor_self, Nat.zero_xor] using e2
  rw [List.foldl_append, List.foldl_append] at h2
  simp only [List.foldl_cons] at h2
  have hs : u.foldl crcStepByte 0xFFFFFFFF < 2 ^ 32 := foldl_crc_lt u _ (by decide) hu
  exact foldl_crc_ne v _ _ (crcStepByte_lt hs hbflip) (crcStepByte_lt hs hb) hv
    (crcStepByte_ne_byte hs hbflip hb hne) h2

theorem unmask_mask {c : Nat} (h : c < 2 ^ 32) : unmask_crc (mask_crc c) = c := by
  unfold mask_crc unmask_crc
  have h1 : c / 32768 < 131072 := by omega
  have h2 : c % 32768 < 32768 := by omega
  have hs : ((c / 32768 + c % 32768 * 131072 + 2726488792) % 4294967296
      + 4294967296 - 2726488792) % 4294967296 = c / 32768 + c % 32768 * 131072 := by
    omega
  rw [hs]
  omega

theorem tagByte_lt (c : CompressionType) : tagByte c < 256 := by
  cases c <;> decide

/-- C9 (confirmed): for every frame `write_block` emits — the (possibly
compressed) contents followed by the compression-tag byte — flipping any
single bit of any contents byte or of the tag byte makes checksum
verification fail: the CRC32-C recomputed over the modified bytes differs
from the unmasked stored checksum. -/
theorem claim_C9 (opt : Options) (ctype : CompressionType) (contents : List Nat)
    (hb : ∀ x ∈ framePayload opt ctype contents, x < 256)
    (k i : Nat) (hk : k < (framePayload opt ctype contents ++ [tagByte ctype]).length)
    (hi : i < 8) :
    crc32c (flipBitAt (framePayload opt ctype contents ++ [tagByte ctype]) k i)
      ≠ unmask_crc (frameChecksum opt ctype contents) := by
  have hfr : ∀ x ∈ framePayload opt ctype contents ++ [tagByte ctype], x < 256 := by
    intro x hx
    rcases List.mem_append.mp hx with h1 | h1
    · exact hb x h1
    · have : x = tagByte ctype := by simpa using h1
      rw [this]
      exact tagByte_lt ctype
  have hcrc : crc32c (framePayload opt ctype contents ++ [tagByte ctype]) < 2 ^ 32 :=
    crc32c_lt _ hfr
  unfold frameChecksum
  rw [unmask_mask hcrc]
  have hsplit : flipBitAt (framePayload opt ctype contents ++ [tagByte ctype]) k i
      = (framePayload opt ctype contents ++ [tagByte ctype]).take k
        ++ ((framePayload opt ctype contents ++ [tagByte ctype]).getD k 0 ^^^ 2 ^ i)
          :: (framePayload opt ctype contents ++ [tagByte ctype]).drop (k + 1) := by
    unfold flipBitAt
    rw [List.set_eq_take_append_cons_drop, if_pos hk]
  have hfull : framePayload opt ctype contents ++ [tagByte ctype]
      = (framePayload opt ctype contents ++ [tagByte ctype]).take k
        ++ (framePayload opt ctype contents ++ [tagByte ctype]).getD k 0
          :: (framePayload opt ctype contents ++ [tagByte ctype]).drop (k + 1) := by
    rw [List.getD_eq_getElem _ _ hk, ← List.drop_eq_getElem_cons hk,
      List.take_append_drop]
  have main := crc32c_flip_ne
    ((framePayload opt ctype contents ++ [tagByte ctype]).take k)
    ((framePayload opt ctype contents ++ [tagByte ctype]).drop (k + 1))
    ((framePayload opt ctype contents ++ [tagByte ctype]).getD k 0) i
    (fun x hx => hfr x (List.take_subset k _ hx))
    (fun x hx => hfr x (List.drop_subset (k + 1) _ hx))
    (by
      rw [List.getD_eq_getElem _ _ hk]
      exact hfr _ (List.getElem_mem hk))
    hi
  rw [← hfull] at main
  rw [hsplit]
  exact main

/-- C9 witness: a concrete one-byte frame with its tag byte; flipping bit 0
of byte 0 makes the recomputed CRC differ from the unmasked stored
checksum. -/
theorem claim_C9_witness :
    (∀ x ∈ framePayload defaultOptions CompressionType.CompressionNone [0], x < 256) ∧
    0 < (framePayload defaultOptions CompressionType.CompressionNone [0]
        ++ [tagByte CompressionType.CompressionNone]).length ∧
    (0 : Nat) < 8 ∧
    crc32c (flipBitAt (framePayload defaultOptions CompressionType.CompressionNone [0]
        ++ [tagByte CompressionType.CompressionNone]) 0 0)
      ≠ unmask_crc (frameChecksum defaultOptions CompressionType.CompressionNone [0]) :=
  ⟨by decide, by decide, by decide,
    claim_C9 defaultOptions CompressionType.CompressionNone [0] (by decide) 0 0
      (by decide) (by decide)⟩
